import Mathlib

/-!
Verification of the PII masking / consolidation core of
`backend/open_webui/utils/pii.py`.

The Python functions are shallowly embedded as Lean definitions:
  * `_check_overlap`, `_get_range_length`, `_resolve_overlaps` — the span
    overlap resolver;
  * `text_masking` — the text masker;
  * `consolidate_pii_data`, `set_file_entity_ids` — the identifier
    consolidator.

Python character indices are unbounded integers, so spans are modelled with
`Int` (range length `end - start` may be negative on degenerate input, as in
Python).  Python `dict`s are modelled as association lists in insertion
order; `dict` lookup takes the *last* binding of a key, matching the
semantics of dict-comprehension construction where later entries overwrite
earlier ones.  A Python function that may raise `KeyError` is modelled with
an explicit error component (`Option String` carrying the missing key)
together with the state of the caller-visible list at the moment the
exception propagates.
-/

/-- String constant used when splitting labels, Python `"_"`. -/
def underscoreSep : String := "_"

/-- The empty string. -/
def emptyString : String := ""

/-- Python `str.lower()`: lower-case every character.  Lean core's
`String.toLower` is the same character map but is implemented through
`String.mapAux`, which the kernel cannot reduce; mapping over the
character list is extensionally identical and keeps concrete instances
checkable by `decide`. -/
def pyLower (s : String) : String := ⟨s.data.map Char.toLower⟩

/- ----------------------------------------------------------------------
Span overlap resolver (`pii.py`, lines 16-118)
---------------------------------------------------------------------- -/

/-- A replacement span as built by `text_masking` and consumed by
`_resolve_overlaps`: Python dict with keys `start_idx`, `end_idx`,
`replacement`, `source_entity`. -/
structure Repl where
  start_idx : Int
  end_idx : Int
  replacement : String
  source_entity : String
deriving DecidableEq, Repr

/-- The `(start_idx, end_idx)` tuple the Python code builds for a
replacement before calling `_check_overlap`. -/
def replRange (r : Repl) : Int × Int := (r.start_idx, r.end_idx)

/-- Python `_check_overlap(range1, range2)`:
`start1 < end2 and start2 < end1`. -/
def _check_overlap (range1 range2 : Int × Int) : Bool :=
  decide (range1.1 < range2.2 ∧ range2.1 < range1.2)

/-- Python `_get_range_length(range_tuple)`: `range_tuple[1] - range_tuple[0]`. -/
def _get_range_length (range_tuple : Int × Int) : Int :=
  range_tuple.2 - range_tuple.1

/-- The pairwise decision of the conflict loop inside `_resolve_overlaps`
(lines 75-108).  Returns `true` when `current` wins (the existing span is
removed, the loop continues) and `false` when `current` loses (the loop
breaks and `current` is discarded).  Every branch of the Python `if`/`elif`
chain is decisive, so a `Bool` captures it exactly. -/
def conflictWins (modifier_entities : List String) (current existing : Repl) : Bool :=
  let current_is_modifier := modifier_entities.contains current.source_entity
  let existing_is_modifier := modifier_entities.contains existing.source_entity
  if current_is_modifier && !existing_is_modifier then
    true
  else if !current_is_modifier && existing_is_modifier then
    false
  else if current_is_modifier && existing_is_modifier then
    decide (_get_range_length (replRange current) > _get_range_length (replRange existing))
  else
    decide (_get_range_length (replRange current) > _get_range_length (replRange existing))

/-- One pass of `_resolve_overlaps`' inner conflict handling over the
`resolved` list for a fixed candidate `current` (lines 56-112 of the
source).  Walking `resolved` in order: a non-overlapping entry is kept; an
overlapping entry that `current` wins against is collected in
`indices_to_remove` (here: dropped from the returned list) and the walk
continues; at the first overlapping entry `current` loses against the
Python loop `break`s — the losing entry and every later entry are kept
(indices past the break point were never examined) and the flag
`should_add_current` is `false`.  The returned `Bool` is
`should_add_current`; the returned list is `resolved` after the
`resolved.pop(idx)` calls. -/
def scanResolved (modifier_entities : List String) (current : Repl) :
    List Repl → Bool × List Repl
  | [] => (true, [])
  | existing :: rest =>
    if _check_overlap (replRange current) (replRange existing) then
      if conflictWins modifier_entities current existing then
        scanResolved modifier_entities current rest
      else
        (false, existing :: rest)
    else
      ((scanResolved modifier_entities current rest).1,
        existing :: (scanResolved modifier_entities current rest).2)

/-- One iteration of the main `for current in sorted_replacements` loop of
`_resolve_overlaps`: apply the removals and append `current` exactly when
`should_add_current` survived (a candidate with no conflicts takes the
`not overlapping_indices` branch, which `scanResolved` reproduces by
returning `(true, resolved)` unchanged). -/
def resolveStep (modifier_entities : List String) (resolved : List Repl)
    (current : Repl) : List Repl :=
  if (scanResolved modifier_entities current resolved).1 then
    (scanResolved modifier_entities current resolved).2 ++ [current]
  else
    (scanResolved modifier_entities current resolved).2

/-- Stable insertion used to model Python's stable `sorted(replacements,
key=lambda x: x["start_idx"])`: the element is placed after every already
present element whose key is less than or equal to its own, preserving the
original relative order of equal keys.  A stable sort is uniquely
determined by its key function, so this insertion sort computes the same
list as CPython's Timsort. -/
def insertByStart (x : Repl) : List Repl → List Repl
  | [] => [x]
  | y :: ys =>
    if x.start_idx < y.start_idx then
      x :: y :: ys
    else
      y :: insertByStart x ys

/-- Python `sorted(replacements, key=lambda x: x["start_idx"])`. -/
def sortByStart (replacements : List Repl) : List Repl :=
  replacements.foldl (fun acc x => insertByStart x acc) []

/-- Python `_resolve_overlaps(replacements, modifier_entities)`
(lines 28-118): early return for lists of length at most one, otherwise
process the start-sorted candidates against an accumulating `resolved`
list. -/
def _resolve_overlaps (replacements : List Repl)
    (modifier_entities : List String) : List Repl :=
  if replacements.length ≤ 1 then
    replacements
  else
    (sortByStart replacements).foldl (resolveStep modifier_entities) []

/-- The accepted (`resolved`) list after the first `n` candidates of the
start-sorted input have been processed by `_resolve_overlaps`' main loop. -/
def resolveState (replacements : List Repl) (modifier_entities : List String)
    (n : Nat) : List Repl :=
  ((sortByStart replacements).take n).foldl (resolveStep modifier_entities) []

/-- Two spans are disjoint when `_check_overlap` rejects them. -/
def spansDisjoint (r1 r2 : Repl) : Prop :=
  _check_overlap (replRange r1) (replRange r2) = false

/- ----------------------------------------------------------------------
Text masker (`pii.py`, lines 121-213)
---------------------------------------------------------------------- -/

/-- An entity occurrence: dict with keys `start_idx`, `end_idx`. -/
structure PiiOcc where
  start_idx : Int
  end_idx : Int
deriving DecidableEq, Repr

/-- A PII entity as consumed by `text_masking`: dict with keys `type`,
`id`, `text`, `occurrences`. -/
structure PiiEnt where
  type : String
  id : Int
  text : String
  occurrences : List PiiOcc
deriving DecidableEq, Repr

/-- A modifier record: dict with keys `action`, `entity`, `type`. -/
structure Modifier where
  action : String
  entity : String
  type : String
deriving DecidableEq, Repr

/-- Python string slice `s[:n]` for an arbitrary integer `n`: a negative
index counts from the end of the string and the result is clamped to the
string's bounds. -/
def pySliceUpTo (s : String) (n : Int) : String :=
  if n < 0 then
    s.take (((s.length : Int) + n).toNat)
  else
    s.take n.toNat

/-- Python string slice `s[n:]` for an arbitrary integer `n`, with the same
clamping conventions as `pySliceUpTo`. -/
def pySliceFrom (s : String) (n : Int) : String :=
  if n < 0 then
    s.drop (((s.length : Int) + n).toNat)
  else
    s.drop n.toNat

/-- Stable insertion for Python's `resolved_replacements.sort(key=lambda x:
x["start_idx"], reverse=True)`: descending by `start_idx`, equal keys keep
their original relative order (Python's sort is stable and `reverse=True`
reverses the comparison, not the result). -/
def insertByStartDesc (x : Repl) : List Repl → List Repl
  | [] => [x]
  | y :: ys =>
    if y.start_idx < x.start_idx then
      x :: y :: ys
    else
      y :: insertByStartDesc x ys

/-- Python `text_masking(text, pii_list, modifiers)` (lines 121-213):
collect the non-empty modifier entity strings, build one replacement span
per entity occurrence with replacement text `[{TYPE_ID}]` and
`source_entity` equal to the entity's surface text, resolve overlaps, sort
the survivors by `start_idx` descending (a stable sort, modelled by stable
insertion like `sortByStart`) and splice each replacement into the text. -/
def text_masking (text : String) (pii_list : List PiiEnt)
    (modifiers : List Modifier) : String :=
  let modifier_entities :=
    modifiers.filterMap (fun m => if m.entity = emptyString then none else some m.entity)
  let replacements :=
    pii_list.flatMap (fun pii =>
      let label := pii.type ++ underscoreSep ++ toString pii.id
      pii.occurrences.map (fun occurrence =>
        { start_idx := occurrence.start_idx
          end_idx := occurrence.end_idx
          replacement := "[\x7b" ++ label ++ "\x7d]"
          source_entity := pii.text }))
  let resolved_replacements := _resolve_overlaps replacements modifier_entities
  let descending :=
    resolved_replacements.foldl (fun acc x => insertByStartDesc x acc) []
  descending.foldl
    (fun t replacement =>
      pySliceUpTo t replacement.start_idx ++ replacement.replacement ++
        pySliceFrom t replacement.end_idx)
    text

/- ----------------------------------------------------------------------
Identifier consolidator (`pii.py`, lines 216-246)
---------------------------------------------------------------------- -/

/-- Last-binding lookup in an association list, the semantics of a Python
`dict` built by inserting the bindings in list order (a later binding of the
same key overwrites an earlier one).  `none` models a missing key. -/
def dictGet {α : Type} : List (String × α) → String → Option α
  | [], _ => none
  | p :: rest, k =>
    match dictGet rest k with
    | some v => some v
    | none => if p.1 = k then some p.2 else none

/-- A value of `file_entities_dict`: dict with keys `id`, `type`, `label`
(the fields read or written by `set_file_entity_ids` and
`consolidate_pii_data`). -/
structure FileEnt where
  id : Int
  type : String
  label : String
deriving DecidableEq, Repr

/-- A known-entity registry record: dict with keys `id`, `label`, `name`. -/
structure KnownEnt where
  id : Int
  label : String
  name : String
deriving DecidableEq, Repr

/-- A detection record in `pii_data`: dict with keys `text`, `id`, `type`,
`label` (the fields read or written by `consolidate_pii_data`). -/
structure PiiItem where
  text : String
  id : Int
  type : String
  label : String
deriving DecidableEq, Repr

/-- The update `consolidate_pii_data` performs on one detection once the
entry `fe` for its lower-cased text has been found: `id` and `type` are
copied from the entry and `label` is rebuilt as the entry's type, an
underscore, and the entry's id. -/
def applyEntry (fe : FileEnt) (p : PiiItem) : PiiItem :=
  { p with
    id := fe.id
    type := fe.type
    label := fe.type ++ underscoreSep ++ toString fe.id }

/-- One detection as transformed by a fully successful
`consolidate_pii_data` run: updated on a hit, untouched on a miss. -/
def consolidateOne (file_entities_dict : List (String × FileEnt))
    (p : PiiItem) : PiiItem :=
  match dictGet file_entities_dict (pyLower p.text) with
  | some fe => applyEntry fe p
  | none => p

/-- Python `consolidate_pii_data(pii_data, file_entities_dict)` (lines
216-225).  The loop mutates each detection of `pii_data` in place; a
missing key raises `KeyError` at the first line of the loop body.  The
embedding passes the list state explicitly: the first component is the
raised `KeyError` key (`none` when the loop completes) and the second is
the state of the caller's `pii_data` list at the moment the function
returns or the exception propagates. -/
def consolidate_pii_data (pii_data : List PiiItem)
    (file_entities_dict : List (String × FileEnt)) :
    Option String × List PiiItem :=
  match pii_data with
  | [] => (none, [])
  | file_pii :: rest =>
    match dictGet file_entities_dict (pyLower file_pii.text) with
    | none => (some (pyLower file_pii.text), file_pii :: rest)
    | some fe =>
      ((consolidate_pii_data rest file_entities_dict).1,
        applyEntry fe file_pii :: (consolidate_pii_data rest file_entities_dict).2)

/-- Python `known_entities_dict = {ke["name"].lower(): ke for ke in
known_entities}` (line 232). -/
def knownDict (known_entities : List KnownEnt) : List (String × KnownEnt) :=
  known_entities.map (fun known_entity => (pyLower known_entity.name, known_entity))

/-- Python `max([pii["id"] for pii in known_entities]) if known_entities_dict
else 0` (line 235); the dict is empty exactly when the list is. -/
def maxKnownId (known_entities : List KnownEnt) : Int :=
  match known_entities with
  | [] => 0
  | k :: ks => (ks.map KnownEnt.id).foldl max k.id

/-- Python `label.split("_")[0]`: `str.split` always returns a non-empty
list, whose head is taken. -/
def labelHead (label : String) : String :=
  (label.splitOn underscoreSep).headD emptyString

/-- The `for pii in file_entities_dict` loop of `set_file_entity_ids`
(lines 236-244), iterating the dict entries in insertion order and carrying
the running `max_id_known_entities` counter.  A matched key adopts the
known entity's `id`, takes `type` from the first `_`-segment of the known
`label` and rebuilds `label` from the freshly written `type` and `id`; an
unmatched key increments the counter, takes it as `id` and rebuilds `label`
from the entry's own (unchanged) `type`. -/
def setFileEntityIdsGo (kd : List (String × KnownEnt)) :
    Int → List (String × FileEnt) → List (String × FileEnt)
  | _, [] => []
  | n, (key, v) :: rest =>
    match dictGet kd key with
    | some ke =>
      (key,
        { v with
          id := ke.id
          type := labelHead ke.label
          label := labelHead ke.label ++ underscoreSep ++ toString ke.id }) ::
        setFileEntityIdsGo kd n rest
    | none =>
      (key,
        { v with
          id := n + 1
          label := v.type ++ underscoreSep ++ toString (n + 1) }) ::
        setFileEntityIdsGo kd (n + 1) rest

/-- Python `set_file_entity_ids(file_entities_dict, known_entities)`
(lines 228-246). -/
def set_file_entity_ids (file_entities_dict : List (String × FileEnt))
    (known_entities : List KnownEnt) : List (String × FileEnt) :=
  setFileEntityIdsGo (knownDict known_entities) (maxKnownId known_entities)
    file_entities_dict

/-- Modelled from the spec: the construction of `file_entities_dict` is not
part of the available sources (only its consumers are).  Per the spec's
Known Entity Registry and Consolidator sections — and consistently with
`consolidate_pii_data`, which looks detections up by `text.lower()` — the
dict keys each entry by the entity's normalized (lower-cased) surface
text. -/
def file_entity_key (surface : String) : String := pyLower surface

/-- The ids assigned by `set_file_entity_ids` to the entries whose key does
not match any known entity, in processing order. -/
def freshIds (file_entities_dict : List (String × FileEnt))
    (known_entities : List KnownEnt) : List Int :=
  ((set_file_entity_ids file_entities_dict known_entities).filter
      (fun p => (dictGet (knownDict known_entities) p.1).isNone)).map
    (fun p => p.2.id)

/- ----------------------------------------------------------------------
Heap model of `set_file_entity_ids` for its frame effect
---------------------------------------------------------------------- -/

/-- A Python dict record with every key touched by `set_file_entity_ids`
on either side (registry records expose `id`, `label`, `name`; file-entity
records expose `id`, `type`, `label`). -/
structure PyRec where
  id : Int
  label : String
  name : String
  type : String
deriving DecidableEq, Repr

/-- A heap of mutable Python dict objects, addressed by identity. -/
def Heap : Type := Nat → PyRec

/-- Destructive update of the record at address `a`. -/
def heapUpdate (h : Heap) (a : Nat) (v : PyRec) : Heap :=
  fun x => if x = a then v else h x

/-- The loop of `set_file_entity_ids` with in-place mutation made explicit:
every Python item assignment `record[key] = value` becomes a heap write at
the record's address, and every read goes through the current heap (so
aliasing between `file_entities_dict` values and registry records would be
observable).  Matched branch: three writes (`id`, then `type`, then
`label`); unmatched branch: two writes (`id`, then `label`). -/
def setFileEntityIdsHeapGo (kd : List (String × Nat)) :
    Int → List (String × Nat) → Heap → Heap
  | _, [], h => h
  | n, (key, addr) :: rest, h =>
    match dictGet kd key with
    | some kaddr =>
      let h1 := heapUpdate h addr { h addr with id := (h kaddr).id }
      let h2 := heapUpdate h1 addr { h1 addr with type := labelHead (h1 kaddr).label }
      let h3 := heapUpdate h2 addr
        { h2 addr with label := (h2 addr).type ++ underscoreSep ++ toString (h2 addr).id }
      setFileEntityIdsHeapGo kd n rest h3
    | none =>
      let h1 := heapUpdate h addr { h addr with id := n + 1 }
      let h2 := heapUpdate h1 addr
        { h1 addr with label := (h1 addr).type ++ underscoreSep ++ toString (h1 addr).id }
      setFileEntityIdsHeapGo kd (n + 1) rest h2

/-- `set_file_entity_ids` over the heap model: `file_entities_dict` maps
keys to record addresses, `known_entities` is a list of record addresses,
and the initial heap holds the records.  The lookup dict and the initial
`max_id_known_entities` are computed from the heap before the loop runs,
exactly as in the source (lines 232-235). -/
def set_file_entity_ids_heap (file_entities_dict : List (String × Nat))
    (known_entities : List Nat) (h : Heap) : Heap :=
  let kd : List (String × Nat) :=
    known_entities.map (fun a => (pyLower (h a).name, a))
  let maxId : Int :=
    match known_entities with
    | [] => 0
    | a :: as_ => (as_.map (fun x => (h x).id)).foldl max (h a).id
  setFileEntityIdsHeapGo kd maxId file_entities_dict h

/- ----------------------------------------------------------------------
Resolver lemmas
---------------------------------------------------------------------- -/

/-- Ordering of spans by `start_idx`, the sort key of the resolver. -/
def startLE (a b : Repl) : Prop := a.start_idx ≤ b.start_idx

theorem check_overlap_comm (r1 r2 : Int × Int) :
    _check_overlap r1 r2 = _check_overlap r2 r1 := by
  simp only [_check_overlap, decide_eq_decide]
  exact ⟨fun h => ⟨h.2, h.1⟩, fun h => ⟨h.2, h.1⟩⟩

theorem conflictWins_self (mods : List String) (x : Repl) :
    conflictWins mods x x = false := by
  cases hm : mods.contains x.source_entity <;>
    simp [conflictWins, hm, _get_range_length]

theorem scanResolved_sublist (mods : List String) (c : Repl) :
    ∀ l : List Repl, ((scanResolved mods c l).2).Sublist l := by
  intro l
  induction l with
  | nil => simp [scanResolved]
  | cons e rest ih =>
    cases ho : _check_overlap (replRange c) (replRange e) with
    | false => simpa [scanResolved, ho] using ih.cons₂ e
    | true =>
      cases hw : conflictWins mods c e with
      | true => simpa [scanResolved, ho, hw] using ih.cons e
      | false => simp [scanResolved, ho, hw]

theorem scanResolved_mem (mods : List String) (c : Repl) (l : List Repl)
    (x : Repl) (hx : x ∈ (scanResolved mods c l).2) : x ∈ l :=
  (scanResolved_sublist mods c l).subset hx

theorem scanResolved_true_disjoint (mods : List String) (c : Repl) :
    ∀ l : List Repl, (scanResolved mods c l).1 = true →
      ∀ e ∈ (scanResolved mods c l).2,
        _check_overlap (replRange c) (replRange e) = false := by
  intro l
  induction l with
  | nil => simp [scanResolved]
  | cons e rest ih =>
    cases ho : _check_overlap (replRange c) (replRange e) with
    | false =>
      intro hb x hx
      simp only [scanResolved, ho] at hb hx
      simp only [Bool.false_eq_true, if_false] at hb hx
      rcases List.mem_cons.mp hx with rfl | hx'
      · exact ho
      · exact ih hb x hx'
    | true =>
      cases hw : conflictWins mods c e with
      | true =>
        intro hb x hx
        simp only [scanResolved, ho, hw, if_true] at hb hx
        exact ih hb x hx
      | false =>
        intro hb
        simp [scanResolved, ho, hw] at hb

theorem scanResolved_no_conflict (mods : List String) (c : Repl) :
    ∀ l : List Repl,
      (∀ e ∈ l, _check_overlap (replRange c) (replRange e) = false) →
      scanResolved mods c l = (true, l) := by
  intro l
  induction l with
  | nil => simp [scanResolved]
  | cons e rest ih =>
    intro h
    have he : _check_overlap (replRange c) (replRange e) = false :=
      h e (List.mem_cons_self e rest)
    have hr := ih (fun x hx => h x (List.mem_cons_of_mem e hx))
    simp [scanResolved, he, hr]

theorem scanResolved_keeps (mods : List String) (c : Repl) :
    ∀ l : List Repl, ∀ x ∈ l,
      (_check_overlap (replRange c) (replRange x) = false ∨
        conflictWins mods c x = false) →
      x ∈ (scanResolved mods c l).2 := by
  intro l
  induction l with
  | nil => simp
  | cons e rest ih =>
    intro x hx hcond
    cases ho : _check_overlap (replRange c) (replRange e) with
    | false =>
      simp only [scanResolved, ho, Bool.false_eq_true, if_false]
      rcases List.mem_cons.mp hx with rfl | hx'
      · exact List.mem_cons_self _ _
      · exact List.mem_cons_of_mem _ (ih x hx' hcond)
    | true =>
      cases hw : conflictWins mods c e with
      | true =>
        simp only [scanResolved, ho, hw, if_true]
        rcases List.mem_cons.mp hx with rfl | hx'
        · rcases hcond with h | h
          · rw [h] at ho; exact absurd ho (by simp)
          · rw [h] at hw; exact absurd hw (by simp)
        · exact ih x hx' hcond
      | false =>
        simp only [scanResolved, ho, hw, Bool.false_eq_true, if_true, if_false]
        exact hx

theorem overlap_pair_of_common (c e1 e2 : Repl)
    (h1 : _check_overlap (replRange c) (replRange e1) = true)
    (h2 : _check_overlap (replRange c) (replRange e2) = true)
    (s1 : e1.start_idx ≤ c.start_idx) (s2 : e2.start_idx ≤ c.start_idx) :
    _check_overlap (replRange e1) (replRange e2) = true := by
  simp only [_check_overlap, replRange, decide_eq_true_eq] at h1 h2 ⊢
  omega

theorem scanResolved_false_eq (mods : List String) (c : Repl) :
    ∀ acc : List Repl, acc.Pairwise spansDisjoint →
      (∀ e ∈ acc, e.start_idx ≤ c.start_idx) →
      (scanResolved mods c acc).1 = false →
      (scanResolved mods c acc).2 = acc := by
  intro acc
  induction acc with
  | nil => simp [scanResolved]
  | cons e rest ih =>
    intro hp hs hf
    have hp' := List.pairwise_cons.mp hp
    cases ho : _check_overlap (replRange c) (replRange e) with
    | false =>
      simp only [scanResolved, ho, Bool.false_eq_true, if_false] at hf ⊢
      rw [ih hp'.2 (fun x hx => hs x (List.mem_cons_of_mem e hx)) hf]
    | true =>
      cases hw : conflictWins mods c e with
      | true =>
        exfalso
        have hnone : ∀ x ∈ rest,
            _check_overlap (replRange c) (replRange x) = false := by
          intro x hx
          cases hcx : _check_overlap (replRange c) (replRange x) with
          | false => rfl
          | true =>
            have := overlap_pair_of_common c e x ho hcx
              (hs e (List.mem_cons_self e rest))
              (hs x (List.mem_cons_of_mem e hx))
            have hdis := hp'.1 x hx
            rw [spansDisjoint] at hdis
            rw [hdis] at this
            exact absurd this (by simp)
        have hrest := scanResolved_no_conflict mods c rest hnone
        simp only [scanResolved, ho, hw, if_true] at hf
        rw [hrest] at hf
        exact absurd hf (by simp)
      | false =>
        simp [scanResolved, ho, hw]

theorem resolveStep_pairwise (mods : List String) (acc : List Repl) (c : Repl)
    (hp : acc.Pairwise spansDisjoint) :
    (resolveStep mods acc c).Pairwise spansDisjoint := by
  unfold resolveStep
  cases hb : (scanResolved mods c acc).1 with
  | false =>
    simp only [Bool.false_eq_true, if_false]
    exact hp.sublist (scanResolved_sublist mods c acc)
  | true =>
    simp only [if_true]
    rw [List.pairwise_append]
    refine ⟨hp.sublist (scanResolved_sublist mods c acc), by simp, ?_⟩
    intro a ha b hb'
    rw [List.mem_singleton] at hb'
    rw [hb']
    have := scanResolved_true_disjoint mods c acc hb a ha
    rw [spansDisjoint, check_overlap_comm]
    exact this

theorem resolveStep_mem (mods : List String) (acc : List Repl) (c : Repl)
    (x : Repl) (hx : x ∈ resolveStep mods acc c) : x ∈ acc ∨ x = c := by
  unfold resolveStep at hx
  cases hb : (scanResolved mods c acc).1 with
  | false =>
    rw [hb] at hx
    simp only [Bool.false_eq_true, if_false] at hx
    exact Or.inl (scanResolved_mem mods c acc x hx)
  | true =>
    rw [hb] at hx
    simp only [if_true] at hx
    rcases List.mem_append.mp hx with h | h
    · exact Or.inl (scanResolved_mem mods c acc x h)
    · exact Or.inr (List.mem_singleton.mp h)

theorem resolveFold_inv (mods : List String) (S : List Repl) :
    ∀ l acc : List Repl, acc.Pairwise spansDisjoint →
      (∀ x ∈ acc, x ∈ S) → (∀ x ∈ l, x ∈ S) →
      (l.foldl (resolveStep mods) acc).Pairwise spansDisjoint ∧
        ∀ x ∈ l.foldl (resolveStep mods) acc, x ∈ S := by
  intro l
  induction l with
  | nil => intro acc h1 h2 _; exact ⟨h1, h2⟩
  | cons c rest ih =>
    intro acc h1 h2 h3
    simp only [List.foldl_cons]
    apply ih
    · exact resolveStep_pairwise mods acc c h1
    · intro x hx
      rcases resolveStep_mem mods acc c x hx with h | rfl
      · exact h2 x h
      · exact h3 x (List.mem_cons_self _ _)
    · exact fun x hx => h3 x (List.mem_cons_of_mem c hx)

theorem mem_insertByStart (x a : Repl) :
    ∀ l : List Repl, (a ∈ insertByStart x l ↔ a = x ∨ a ∈ l) := by
  intro l
  induction l with
  | nil => simp [insertByStart]
  | cons y ys ih =>
    by_cases h : x.start_idx < y.start_idx
    · simp [insertByStart, h, List.mem_cons]
    · simp only [insertByStart, h, if_false, List.mem_cons, ih]
      tauto

theorem mem_sortByStart_fold (a : Repl) :
    ∀ l acc : List Repl,
      (a ∈ l.foldl (fun acc x => insertByStart x acc) acc ↔ a ∈ acc ∨ a ∈ l) := by
  intro l
  induction l with
  | nil => simp
  | cons x rest ih =>
    intro acc
    simp only [List.foldl_cons, ih, mem_insertByStart, List.mem_cons]
    tauto

theorem mem_sortByStart (a : Repl) (l : List Repl) :
    a ∈ sortByStart l ↔ a ∈ l := by
  simp [sortByStart, mem_sortByStart_fold]

theorem insertByStart_sorted (x : Repl) :
    ∀ l : List Repl, l.Pairwise startLE → (insertByStart x l).Pairwise startLE := by
  intro l
  induction l with
  | nil => simp [insertByStart, List.pairwise_singleton]
  | cons y ys ih =>
    intro hp
    have hp' := List.pairwise_cons.mp hp
    by_cases h : x.start_idx < y.start_idx
    · simp only [insertByStart, h, if_true]
      rw [List.pairwise_cons]
      refine ⟨?_, hp⟩
      intro z hz
      rcases List.mem_cons.mp hz with rfl | hz'
      · exact le_of_lt h
      · exact le_trans (le_of_lt h) (hp'.1 z hz')
    · simp only [insertByStart, h, if_false]
      rw [List.pairwise_cons]
      refine ⟨?_, ih hp'.2⟩
      intro z hz
      rcases (mem_insertByStart x z ys).mp hz with rfl | hz'
      · exact Int.not_lt.mp h
      · exact hp'.1 z hz'

theorem sortByStart_sorted_fold :
    ∀ l acc : List Repl, acc.Pairwise startLE →
      (l.foldl (fun acc x => insertByStart x acc) acc).Pairwise startLE := by
  intro l
  induction l with
  | nil => intro acc h; exact h
  | cons x rest ih =>
    intro acc h
    simp only [List.foldl_cons]
    exact ih _ (insertByStart_sorted x acc h)

theorem sortByStart_sorted (l : List Repl) :
    (sortByStart l).Pairwise startLE :=
  sortByStart_sorted_fold l [] (by simp)

theorem getElem?_mem_drop :
    ∀ (l : List Repl) (n : Nat) (c : Repl), l[n]? = some c → c ∈ l.drop n := by
  intro l
  induction l with
  | nil => intro n c h; simp at h
  | cons a t ih =>
    intro n c h
    cases n with
    | zero =>
      simp only [List.getElem?_cons_zero, Option.some.injEq] at h
      subst h
      exact List.mem_cons_self _ _
    | succ m =>
      simp only [List.getElem?_cons_succ] at h
      simpa using ih m c h

theorem resolveStep_keeps (mods : List String) (acc : List Repl) (c x : Repl)
    (hxacc : x ∈ acc)
    (hcond : _check_overlap (replRange c) (replRange x) = false ∨
      conflictWins mods c x = false) :
    x ∈ resolveStep mods acc c := by
  have hkeep : x ∈ (scanResolved mods c acc).2 :=
    scanResolved_keeps mods c acc x hxacc hcond
  unfold resolveStep
  cases hb : (scanResolved mods c acc).1 with
  | false => simpa using hkeep
  | true => simp only [if_true]; exact List.mem_append_left _ hkeep

theorem resolveFold_keeps (mods : List String) (S : List Repl) (x : Repl)
    (hsafe : ∀ y ∈ S, y = x ∨ _check_overlap (replRange x) (replRange y) = false) :
    ∀ l acc : List Repl, (∀ e ∈ acc, e ∈ S) → (∀ e ∈ l, e ∈ S) →
      (x ∈ acc ∨ x ∈ l) → x ∈ l.foldl (resolveStep mods) acc := by
  intro l
  induction l with
  | nil =>
    intro acc _ _ hor
    simpa using hor.resolve_right (by simp)
  | cons c rest ih =>
    intro acc haccS hlS hor
    simp only [List.foldl_cons]
    have hcS : c ∈ S := hlS c (List.mem_cons_self _ _)
    have survive : x ∈ acc → x ∈ resolveStep mods acc c := by
      intro hxacc
      apply resolveStep_keeps mods acc c x hxacc
      rcases hsafe c hcS with hce | hno
      · right
        rw [hce]
        exact conflictWins_self mods x
      · exact Or.inl (by rw [check_overlap_comm]; exact hno)
    apply ih (resolveStep mods acc c)
    · intro e he
      rcases resolveStep_mem mods acc c e he with h | rfl
      · exact haccS e h
      · exact hcS
    · exact fun e he => hlS e (List.mem_cons_of_mem c he)
    · rcases hor with hxacc | hxcons
      · exact Or.inl (survive hxacc)
      · rcases List.mem_cons.mp hxcons with rfl | hxrest
        · by_cases hxa : x ∈ acc
          · exact Or.inl (survive hxa)
          · left
            have hnone : ∀ e ∈ acc,
                _check_overlap (replRange x) (replRange e) = false := by
              intro e he
              rcases hsafe e (haccS e he) with rfl | hno
              · exact absurd he hxa
              · exact hno
            unfold resolveStep
            rw [scanResolved_no_conflict mods x acc hnone]
            simp
        · exact Or.inr hxrest

/-- C1: for every input list of replacement spans and every modifier-entity
set, `_resolve_overlaps` returns a subset of the input spans, and no two
returned spans overlap in the sense of `_check_overlap` (`start1 < end2`
and `start2 < end1`). -/
theorem resolver_output_disjoint_subset (spans : List Repl) (mods : List String) :
    (∀ r ∈ _resolve_overlaps spans mods, r ∈ spans) ∧
      (_resolve_overlaps spans mods).Pairwise spansDisjoint := by
  unfold _resolve_overlaps
  by_cases h : spans.length ≤ 1
  · simp only [h, if_true]
    refine ⟨fun r hr => hr, ?_⟩
    match spans, h with
    | [], _ => exact List.Pairwise.nil
    | [a], _ => exact List.pairwise_singleton _ _
  · simp only [h, if_false]
    have := resolveFold_inv mods spans (sortByStart spans) []
      List.Pairwise.nil (by simp)
      (fun x hx => (mem_sortByStart x spans).mp hx)
    exact ⟨this.2, this.1⟩

/-- Witness for C1 at a concrete input: the three-span example evaluates to
a non-overlapping subset. -/
theorem resolver_output_disjoint_subset_witness :
    (∀ r ∈ _resolve_overlaps
        [⟨0, 10, emptyString, emptyString⟩, ⟨1, 3, emptyString, emptyString⟩,
          ⟨9, 30, emptyString, emptyString⟩] [],
      r ∈ [(⟨0, 10, emptyString, emptyString⟩ : Repl), ⟨1, 3, emptyString, emptyString⟩,
          ⟨9, 30, emptyString, emptyString⟩]) ∧
      (_resolve_overlaps
        [⟨0, 10, emptyString, emptyString⟩, ⟨1, 3, emptyString, emptyString⟩,
          ⟨9, 30, emptyString, emptyString⟩] []).Pairwise spansDisjoint :=
  resolver_output_disjoint_subset _ _

/-- C3 counterexample: on the input spans `(0,10)`, `(1,3)`, `(9,30)` with
no modifiers, the resolver returns `[(9,30)]` only — the discarded span
`(1,3)` overlaps nothing in the output (in either orientation), so the
output is not a maximal non-overlapping subset.  `(1,3)` lost to `(0,10)`,
which was itself later removed by the longer `(9,30)`. -/
theorem resolver_not_maximal_counterexample :
    (⟨1, 3, emptyString, emptyString⟩ : Repl) ∈
        ([⟨0, 10, emptyString, emptyString⟩, ⟨1, 3, emptyString, emptyString⟩,
          ⟨9, 30, emptyString, emptyString⟩] : List Repl) ∧
      (⟨1, 3, emptyString, emptyString⟩ : Repl) ∉
        _resolve_overlaps
          [⟨0, 10, emptyString, emptyString⟩, ⟨1, 3, emptyString, emptyString⟩,
            ⟨9, 30, emptyString, emptyString⟩] [] ∧
      ∀ r ∈ _resolve_overlaps
          [⟨0, 10, emptyString, emptyString⟩, ⟨1, 3, emptyString, emptyString⟩,
            ⟨9, 30, emptyString, emptyString⟩] [],
        _check_overlap (replRange ⟨1, 3, emptyString, emptyString⟩) (replRange r) = false ∧
          _check_overlap (replRange r) (replRange ⟨1, 3, emptyString, emptyString⟩) = false := by
  decide

/-- C3 (amended): the resolver's output is a pairwise non-overlapping
subset of the input (see C1) and keeps every input span that overlaps no
other input span, but it need not be maximal: a discarded span can be
addable to the final output when the accepted span it lost against was
later removed by a longer candidate. -/
theorem resolver_keeps_conflict_free_spans (spans : List Repl)
    (mods : List String) (x : Repl) (hx : x ∈ spans)
    (hsafe : ∀ y ∈ spans, y = x ∨
      _check_overlap (replRange x) (replRange y) = false) :
    x ∈ _resolve_overlaps spans mods := by
  unfold _resolve_overlaps
  by_cases h : spans.length ≤ 1
  · simpa [h] using hx
  · simp only [h, if_false]
    exact resolveFold_keeps mods spans x hsafe (sortByStart spans) []
      (by simp) (fun e he => (mem_sortByStart e spans).mp he)
      (Or.inr ((mem_sortByStart x spans).mpr hx))

/-- Witness for the amended C3: the span `(20,25)` overlaps neither
`(0,10)` nor `(1,3)` and is kept by the resolver. -/
theorem resolver_keeps_conflict_free_spans_witness :
    (⟨20, 25, emptyString, emptyString⟩ : Repl) ∈
      _resolve_overlaps
        [⟨0, 10, emptyString, emptyString⟩, ⟨20, 25, emptyString, emptyString⟩,
          ⟨1, 3, emptyString, emptyString⟩] [] :=
  resolver_keeps_conflict_free_spans _ _ _ (by decide) (by decide)

/-- C4: during `_resolve_overlaps`' main loop, whenever the candidate
`c` (the `n`-th span in sorted order) loses a pairwise comparison
(`should_add_current = false`), the candidate is dropped and the accepted
list is left exactly as it was before the candidate was processed: the
iteration is a no-op, so no span the candidate beat earlier is lost.
(Against the accepted set reachable in sorted-order processing a candidate
can have at most one conflict, so a first loss is also the only comparison
made.) -/
theorem resolver_loss_leaves_accepted_unchanged (spans : List Repl)
    (mods : List String) (n : Nat) (c : Repl)
    (hc : (sortByStart spans)[n]? = some c)
    (hf : (scanResolved mods c (resolveState spans mods n)).1 = false) :
    resolveStep mods (resolveState spans mods n) c = resolveState spans mods n ∧
      resolveState spans mods (n + 1) = resolveState spans mods n := by
  have hsorted := sortByStart_sorted spans
  have hinv := resolveFold_inv mods ((sortByStart spans).take n)
    ((sortByStart spans).take n) [] List.Pairwise.nil (by simp) (fun x hx => hx)
  have hpair : (resolveState spans mods n).Pairwise spansDisjoint := hinv.1
  have hmem : ∀ x ∈ resolveState spans mods n, x ∈ (sortByStart spans).take n :=
    hinv.2
  have hle : ∀ e ∈ resolveState spans mods n, e.start_idx ≤ c.start_idx := by
    intro e he
    have h1 : e ∈ (sortByStart spans).take n := hmem e he
    have h2 : c ∈ (sortByStart spans).drop n := getElem?_mem_drop _ n c hc
    have hsplit : ((sortByStart spans).take n ++ (sortByStart spans).drop n).Pairwise startLE := by
      rw [List.take_append_drop]
      exact hsorted
    exact (List.pairwise_append.mp hsplit).2.2 e h1 c h2
  have heq : (scanResolved mods c (resolveState spans mods n)).2 =
      resolveState spans mods n :=
    scanResolved_false_eq mods c _ hpair hle hf
  constructor
  · unfold resolveStep
    rw [hf, heq]
    simp
  · have htake : (sortByStart spans).take (n + 1) =
        (sortByStart spans).take n ++ [c] := by
      rw [List.take_succ, hc]
      rfl
    unfold resolveState
    rw [htake, List.foldl_append]
    show resolveStep mods (resolveState spans mods n) c = resolveState spans mods n
    unfold resolveStep
    rw [hf, heq]
    simp

/-- Witness for C4: with spans `(0,10)` and `(1,3)` and no modifiers, the
second candidate loses its comparison and the accepted set is unchanged. -/
theorem resolver_loss_leaves_accepted_unchanged_witness :
    resolveStep [] (resolveState [⟨0, 10, emptyString, emptyString⟩,
        ⟨1, 3, emptyString, emptyString⟩] [] 1) ⟨1, 3, emptyString, emptyString⟩ =
      resolveState [⟨0, 10, emptyString, emptyString⟩,
        ⟨1, 3, emptyString, emptyString⟩] [] 1 ∧
      resolveState [⟨0, 10, emptyString, emptyString⟩,
          ⟨1, 3, emptyString, emptyString⟩] [] 2 =
        resolveState [⟨0, 10, emptyString, emptyString⟩,
          ⟨1, 3, emptyString, emptyString⟩] [] 1 :=
  resolver_loss_leaves_accepted_unchanged _ _ 1 _ (by decide) (by decide)

/-- C5: for a pair of overlapping input spans of which exactly one has its
`source_entity` in the modifier-entity set, the resolver keeps exactly the
modifier-sourced span and discards the other, for either input order —
hence regardless of which span is longer and which starts earlier. -/
theorem resolver_modifier_beats_detection (mods : List String) (a b : Repl)
    (hov : _check_overlap (replRange a) (replRange b) = true)
    (ha : mods.contains a.source_entity = true)
    (hb : mods.contains b.source_entity = false) :
    _resolve_overlaps [a, b] mods = [a] ∧ _resolve_overlaps [b, a] mods = [a] := by
  have hov' : _check_overlap (replRange b) (replRange a) = true := by
    rw [check_overlap_comm]; exact hov
  have ha' : a.source_entity ∈ mods := by simpa using ha
  have hb' : b.source_entity ∉ mods := by simpa using hb
  constructor
  · by_cases hba : b.start_idx < a.start_idx
    · simp [_resolve_overlaps, sortByStart, insertByStart, hba, resolveStep,
        scanResolved, conflictWins, ha', hb', hov, hov']
    · simp [_resolve_overlaps, sortByStart, insertByStart, hba, resolveStep,
        scanResolved, conflictWins, ha', hb', hov, hov']
  · by_cases hab : a.start_idx < b.start_idx
    · simp [_resolve_overlaps, sortByStart, insertByStart, hab, resolveStep,
        scanResolved, conflictWins, ha', hb', hov, hov']
    · simp [_resolve_overlaps, sortByStart, insertByStart, hab, resolveStep,
        scanResolved, conflictWins, ha', hb', hov, hov']

/-- Witness for C5: a short, late-starting modifier span beats a longer,
earlier detection span, in both input orders. -/
theorem resolver_modifier_beats_detection_witness :
    _resolve_overlaps [⟨4, 6, emptyString, "M"⟩, ⟨0, 5, emptyString, "D"⟩] ["M"] =
        [⟨4, 6, emptyString, "M"⟩] ∧
      _resolve_overlaps [⟨0, 5, emptyString, "D"⟩, ⟨4, 6, emptyString, "M"⟩] ["M"] =
        [⟨4, 6, emptyString, "M"⟩] :=
  resolver_modifier_beats_detection ["M"] _ _ (by decide) (by decide) (by decide)

/- ----------------------------------------------------------------------
Masker scenario
---------------------------------------------------------------------- -/

/-- The text of spec Scenario A. -/
def scenarioAText : String := "Hello John Doe, your email is john@example.com"

/-- The expected masked output of spec Scenario A (the braces of the
placeholder format are literal characters). -/
def scenarioAExpected : String :=
  "Hello [\x7bPERSON_1\x7d], your email is [\x7bEMAIL_2\x7d]"

set_option maxRecDepth 8000 in
/-- C8: masking `"Hello John Doe, your email is john@example.com"` with a
PERSON entity (id 1, single occurrence `[6,14)`) and an EMAIL entity (id 2,
single occurrence `[30,46)`) and no modifiers yields exactly
`"Hello [\x7bPERSON_1\x7d], your email is [\x7bEMAIL_2\x7d]"` with literal
braces. -/
theorem text_masking_scenarioA :
    text_masking scenarioAText
      [⟨"PERSON", 1, "John Doe", [⟨6, 14⟩]⟩,
        ⟨"EMAIL", 2, "john@example.com", [⟨30, 46⟩]⟩] [] = scenarioAExpected := by
  decide

/- ----------------------------------------------------------------------
Consolidator lemmas
---------------------------------------------------------------------- -/

theorem dictGet_knownDict_some (s : String) (v : KnownEnt) :
    ∀ l : List KnownEnt, dictGet (knownDict l) s = some v →
      v ∈ l ∧ pyLower v.name = s := by
  intro l
  induction l with
  | nil => simp [knownDict, dictGet]
  | cons k rest ih =>
    intro h
    have hcons : knownDict (k :: rest) = (pyLower k.name, k) :: knownDict rest := rfl
    rw [hcons] at h
    cases hr : dictGet (knownDict rest) s with
    | some w =>
      have hred : dictGet ((pyLower k.name, k) :: knownDict rest) s = some w := by
        simp [dictGet, hr]
      rw [hred] at h
      obtain rfl : w = v := by injection h
      obtain ⟨h1, h2⟩ := ih hr
      exact ⟨List.mem_cons_of_mem k h1, h2⟩
    | none =>
      have hred : dictGet ((pyLower k.name, k) :: knownDict rest) s =
          if pyLower k.name = s then some k else none := by
        simp [dictGet, hr]
      rw [hred] at h
      by_cases hk : pyLower k.name = s
      · rw [if_pos hk] at h
        obtain rfl : k = v := by injection h
        exact ⟨List.mem_cons_self _ _, hk⟩
      · rw [if_neg hk] at h
        exact absurd h (by simp)

theorem dictGet_knownDict_isSome (s : String) (v : KnownEnt) :
    ∀ l : List KnownEnt, v ∈ l → pyLower v.name = s →
      (dictGet (knownDict l) s).isSome = true := by
  intro l
  induction l with
  | nil => simp
  | cons k rest ih =>
    intro hv hs
    have hcons : knownDict (k :: rest) = (pyLower k.name, k) :: knownDict rest := rfl
    rw [hcons]
    cases hr : dictGet (knownDict rest) s with
    | some w => simp [dictGet, hr]
    | none =>
      rcases List.mem_cons.mp hv with rfl | hv'
      · simp [dictGet, hr, hs]
      · have := ih hv' hs
        rw [hr] at this
        simp at this

theorem dictGet_knownDict_eq (known : List KnownEnt) (ke : KnownEnt) (s : String)
    (hmem : ke ∈ known) (hname : pyLower ke.name = s)
    (huniq : ∀ ke' ∈ known, pyLower ke'.name = s → ke' = ke) :
    dictGet (knownDict known) s = some ke := by
  cases hr : dictGet (knownDict known) s with
  | some w =>
    obtain ⟨h1, h2⟩ := dictGet_knownDict_some s w known hr
    rw [huniq w h1 h2]
  | none =>
    have := dictGet_knownDict_isSome s ke known hmem hname
    rw [hr] at this
    simp at this

theorem setFileEntityIdsGo_matched (kd : List (String × KnownEnt)) :
    ∀ (fed : List (String × FileEnt)) (n : Int) (i : Nat) (key : String)
      (v : FileEnt) (ke : KnownEnt),
      fed[i]? = some (key, v) → dictGet kd key = some ke →
      (setFileEntityIdsGo kd n fed)[i]? = some (key,
        { v with
          id := ke.id
          type := labelHead ke.label
          label := labelHead ke.label ++ underscoreSep ++ toString ke.id }) := by
  intro fed
  induction fed with
  | nil => intro n i key v ke h; simp at h
  | cons p rest ih =>
    intro n i key v ke hget hke
    cases i with
    | zero =>
      simp only [List.getElem?_cons_zero, Option.some.injEq] at hget
      subst hget
      cases hd : dictGet kd key with
      | some ke' =>
        rw [hke] at hd
        obtain rfl : ke = ke' := by injection hd
        simp [setFileEntityIdsGo, hke]
      | none => rw [hke] at hd; exact absurd hd (by simp)
    | succ m =>
      simp only [List.getElem?_cons_succ] at hget
      obtain ⟨key', v'⟩ := p
      cases hd : dictGet kd key' with
      | some ke' =>
        simp only [setFileEntityIdsGo, hd, List.getElem?_cons_succ]
        exact ih n m key v ke hget hke
      | none =>
        simp only [setFileEntityIdsGo, hd, List.getElem?_cons_succ]
        exact ih (n + 1) m key v ke hget hke

/-- C2: entity matching in `set_file_entity_ids` is case-insensitive
exact-string matching on lower-cased surface text.  If the `i`-th entry of
`file_entities_dict` is keyed by the normalized surface text of some
detection (see `file_entity_key`, modelled from the spec) and that surface
text equals the name of the known entity `ke` up to letter casing (and `ke`
is the unique such registry record, as Python dict construction makes the
last duplicate win), then the entry is assigned `ke`'s id rather than a
fresh one. -/
theorem consolidator_case_insensitive_match (fed : List (String × FileEnt))
    (known : List KnownEnt) (i : Nat) (surface : String) (v : FileEnt)
    (ke : KnownEnt) (hget : fed[i]? = some (file_entity_key surface, v))
    (hke : ke ∈ known) (hcase : pyLower surface = pyLower ke.name)
    (huniq : ∀ ke' ∈ known, pyLower ke'.name = pyLower ke.name → ke' = ke) :
    ∃ v', (set_file_entity_ids fed known)[i]? = some (file_entity_key surface, v') ∧
      v'.id = ke.id := by
  have hlook : dictGet (knownDict known) (file_entity_key surface) = some ke := by
    rw [file_entity_key, hcase]
    exact dictGet_knownDict_eq known ke (pyLower ke.name) hke rfl huniq
  refine ⟨{ v with
      id := ke.id
      type := labelHead ke.label
      label := labelHead ke.label ++ underscoreSep ++ toString ke.id }, ?_, rfl⟩
  unfold set_file_entity_ids
  exact setFileEntityIdsGo_matched (knownDict known) fed (maxKnownId known) i
    (file_entity_key surface) v ke hget hlook

/-- The surface text of spec Scenario C's new detection. -/
def scenarioCSurface : String := "JOHN DOE"

/-- Witness for C2, spec Scenario C: a registry holding id 1 with label
`"PERSON_1"` and name `"John Doe"`, and a detection with surface text
`"JOHN DOE"` — the dict entry receives id 1. -/
theorem consolidator_case_insensitive_match_witness :
    ∃ v', (set_file_entity_ids
        [(file_entity_key scenarioCSurface, ⟨3, "PERSON", "PERSON_3"⟩)]
        [⟨1, "PERSON_1", "John Doe"⟩])[0]? =
          some (file_entity_key scenarioCSurface, v') ∧ v'.id = 1 :=
  consolidator_case_insensitive_match _ _ 0 scenarioCSurface
    ⟨3, "PERSON", "PERSON_3"⟩
    ⟨1, "PERSON_1", "John Doe"⟩ (by decide) (by decide) (by decide) (by decide)

theorem le_foldl_max (l : List Int) :
    ∀ a : Int, a ≤ l.foldl max a ∧ ∀ x ∈ l, x ≤ l.foldl max a := by
  induction l with
  | nil => intro a; exact ⟨le_refl a, by simp⟩
  | cons b t ih =>
    intro a
    simp only [List.foldl_cons]
    obtain ⟨h1, h2⟩ := ih (max a b)
    refine ⟨le_trans (le_max_left a b) h1, ?_⟩
    intro x hx
    rcases List.mem_cons.mp hx with rfl | hx'
    · exact le_trans (le_max_right a x) h1
    · exact h2 x hx'

theorem maxKnownId_ge (known : List KnownEnt) (ke : KnownEnt) (hke : ke ∈ known) :
    ke.id ≤ maxKnownId known := by
  cases known with
  | nil => simp at hke
  | cons k ks =>
    rw [maxKnownId]
    rcases List.mem_cons.mp hke with rfl | h
    · exact (le_foldl_max (ks.map KnownEnt.id) ke.id).1
    · exact (le_foldl_max (ks.map KnownEnt.id) k.id).2 ke.id
        (List.mem_map_of_mem KnownEnt.id h)

theorem setFileEntityIdsGo_fresh (kd : List (String × KnownEnt)) :
    ∀ (fed : List (String × FileEnt)) (n : Int),
      ((setFileEntityIdsGo kd n fed).filter
          (fun p => (dictGet kd p.1).isNone)).map (fun p => p.2.id) =
        (List.range ((fed.filter (fun p => (dictGet kd p.1).isNone)).length)).map
          (fun j : Nat => n + 1 + (j : Int)) := by
  intro fed
  induction fed with
  | nil => intro n; simp [setFileEntityIdsGo]
  | cons p rest ih =>
    intro n
    obtain ⟨key, v⟩ := p
    cases hd : dictGet kd key with
    | some ke =>
      simp only [setFileEntityIdsGo, hd, List.filter_cons]
      simp only [hd, Option.isNone_some, Bool.false_eq_true, if_false]
      exact ih n
    | none =>
      simp only [setFileEntityIdsGo, hd, List.filter_cons]
      simp only [hd, Option.isNone_none, if_true, List.map_cons, List.length_cons]
      rw [ih (n + 1), List.range_succ_eq_map]
      simp only [List.map_cons, List.map_map, Nat.cast_zero, add_zero]
      refine congrArg _ ?_
      apply List.map_congr_left
      intro j hj
      simp only [Function.comp_apply]
      push_cast
      ring

/-- C6: in `set_file_entity_ids`, the entries whose key matches no known
entity receive, in processing order, exactly the consecutive ids
`max(known ids, default 0) + 1, + 2, ...` — so every fresh id is strictly
greater than every pre-existing registry id and the fresh ids are pairwise
distinct. -/
theorem consolidator_fresh_ids (fed : List (String × FileEnt))
    (known : List KnownEnt) :
    freshIds fed known =
        (List.range ((fed.filter
            (fun p => (dictGet (knownDict known) p.1).isNone)).length)).map
          (fun j : Nat => maxKnownId known + 1 + (j : Int)) ∧
      (∀ ke ∈ known, ∀ x ∈ freshIds fed known, ke.id < x) ∧
      (freshIds fed known).Nodup := by
  have h1 : freshIds fed known =
      (List.range ((fed.filter
          (fun p => (dictGet (knownDict known) p.1).isNone)).length)).map
        (fun j : Nat => maxKnownId known + 1 + (j : Int)) := by
    unfold freshIds set_file_entity_ids
    exact setFileEntityIdsGo_fresh (knownDict known) fed (maxKnownId known)
  refine ⟨h1, ?_, ?_⟩
  · intro ke hke x hx
    rw [h1] at hx
    obtain ⟨j, hj, rfl⟩ := List.mem_map.mp hx
    have hle := maxKnownId_ge known ke hke
    omega
  · have hinj : Function.Injective
        (fun j : Nat => maxKnownId known + 1 + (j : Int)) := by
      intro a b hab
      replace hab : maxKnownId known + 1 + (a : Int) =
        maxKnownId known + 1 + (b : Int) := hab
      omega
    rw [h1]
    exact (List.nodup_range _).map hinj

/-- Witness for C6, spec Scenario D: with an empty registry, two unmatched
detections receive the distinct ids 1 and 2 in processing order. -/
theorem consolidator_fresh_ids_witness :
    freshIds [("john doe", ⟨0, "PERSON", emptyString⟩),
        ("jane smith", ⟨0, "PERSON", emptyString⟩)] [] = [1, 2] := by
  rw [(consolidator_fresh_ids [("john doe", ⟨0, "PERSON", emptyString⟩),
    ("jane smith", ⟨0, "PERSON", emptyString⟩)] []).1]
  decide

theorem consolidate_none_iff (fed : List (String × FileEnt)) :
    ∀ pii : List PiiItem,
      ((consolidate_pii_data pii fed).1 = none ↔
        ∀ p ∈ pii, (dictGet fed (pyLower p.text)).isSome = true) := by
  intro pii
  induction pii with
  | nil => simp [consolidate_pii_data]
  | cons p rest ih =>
    cases hd : dictGet fed (pyLower p.text) with
    | none => simp [consolidate_pii_data, hd]
    | some fe => simp [consolidate_pii_data, hd, ih]

theorem consolidate_none_map (fed : List (String × FileEnt)) :
    ∀ pii : List PiiItem, (consolidate_pii_data pii fed).1 = none →
      (consolidate_pii_data pii fed).2 = pii.map (consolidateOne fed) := by
  intro pii
  induction pii with
  | nil => simp [consolidate_pii_data]
  | cons p rest ih =>
    intro hn
    cases hd : dictGet fed (pyLower p.text) with
    | none => simp [consolidate_pii_data, hd] at hn
    | some fe =>
      simp only [consolidate_pii_data, hd] at hn ⊢
      rw [List.map_cons, ih hn]
      rw [consolidateOne, hd]

/-- C7: `consolidate_pii_data` raises a `KeyError` exactly when some
detection's lower-cased text is absent from `file_entities_dict`; when
every lower-cased text is present, the call succeeds and each detection is
rewritten with the matching entry's `id`, the entry's `type`, and the label
`type` + `"_"` + `id` (see `applyEntry`). -/
theorem consolidate_keyerror_iff (pii : List PiiItem)
    (fed : List (String × FileEnt)) :
    ((consolidate_pii_data pii fed).1 ≠ none ↔
        ∃ p ∈ pii, dictGet fed (pyLower p.text) = none) ∧
      ((consolidate_pii_data pii fed).1 = none →
        ∀ (i : Nat) (p : PiiItem), pii[i]? = some p →
          ∃ fe, dictGet fed (pyLower p.text) = some fe ∧
            (consolidate_pii_data pii fed).2[i]? = some (applyEntry fe p)) := by
  constructor
  · rw [not_iff_comm.symm]
    push_neg
    rw [consolidate_none_iff fed pii]
    constructor
    · intro h p hp
      have := h p hp
      cases hd : dictGet fed (pyLower p.text) with
      | none => rw [hd] at this; exact absurd rfl this
      | some fe => simp [hd]
    · intro h p hp hn
      have := h p hp
      rw [hn] at this
      simp at this
  · intro hn i p hget
    have hall := (consolidate_none_iff fed pii).mp hn
    have hp : p ∈ pii := by
      obtain ⟨h, rfl⟩ := List.getElem?_eq_some_iff.mp hget
      exact List.getElem_mem h
    have hsome := hall p hp
    cases hd : dictGet fed (pyLower p.text) with
    | none => rw [hd] at hsome; simp at hsome
    | some fe =>
      refine ⟨fe, rfl, ?_⟩
      rw [consolidate_none_map fed pii hn]
      rw [List.getElem?_map, hget]
      simp [consolidateOne, hd]

/-- Witness for C7: a one-detection success case — the detection text
`"John Doe"` resolves through key `"john doe"` and is rewritten with id 1,
type `"PERSON"` and label `"PERSON_1"`. -/
theorem consolidate_keyerror_iff_witness :
    ∃ fe, dictGet [("john doe", (⟨1, "PERSON", "PERSON_1"⟩ : FileEnt))]
        (pyLower (⟨"John Doe", 3, "PERSON", "PERSON_3"⟩ : PiiItem).text) = some fe ∧
      (consolidate_pii_data [⟨"John Doe", 3, "PERSON", "PERSON_3"⟩]
          [("john doe", ⟨1, "PERSON", "PERSON_1"⟩)]).2[0]? =
        some (applyEntry fe ⟨"John Doe", 3, "PERSON", "PERSON_3"⟩) :=
  (consolidate_keyerror_iff [⟨"John Doe", 3, "PERSON", "PERSON_3"⟩]
      [("john doe", ⟨1, "PERSON", "PERSON_1"⟩)]).2 (by decide) 0
    ⟨"John Doe", 3, "PERSON", "PERSON_3"⟩ (by decide)

/-- C9: `consolidate_pii_data` is not atomic on failure.  If the `k`-th
detection is the first whose lower-cased text is missing from
`file_entities_dict`, the function raises `KeyError` with that key while
detections `0 .. k-1` have already been rewritten in place and the
detections from position `k` on are untouched — and that partially mutated
list is what the caller observes. -/
theorem consolidate_partial_mutation (pii : List PiiItem)
    (fed : List (String × FileEnt)) (k : Nat) (p : PiiItem)
    (hk : pii[k]? = some p)
    (hbefore : ∀ (j : Nat) (q : PiiItem), j < k → pii[j]? = some q →
      (dictGet fed (pyLower q.text)).isSome = true)
    (hmiss : dictGet fed (pyLower p.text) = none) :
    consolidate_pii_data pii fed =
      (some (pyLower p.text),
        (pii.take k).map (consolidateOne fed) ++ pii.drop k) := by
  induction k generalizing pii with
  | zero =>
    cases pii with
    | nil => simp at hk
    | cons q rest =>
      simp only [List.getElem?_cons_zero, Option.some.injEq] at hk
      subst hk
      simp [consolidate_pii_data, hmiss]
  | succ m ih =>
    cases pii with
    | nil => simp at hk
    | cons q rest =>
      have hq : (dictGet fed (pyLower q.text)).isSome = true :=
        hbefore 0 q (Nat.succ_pos m) (by simp)
      cases hd : dictGet fed (pyLower q.text) with
      | none => rw [hd] at hq; simp at hq
      | some fe =>
        simp only [List.getElem?_cons_succ] at hk
        have hrest := ih rest hk
          (fun j q' hj hget => hbefore (j + 1) q' (Nat.succ_lt_succ hj)
            (by simpa using hget))
        simp only [consolidate_pii_data, hd, hrest, List.take_succ_cons,
          List.map_cons, List.drop_succ_cons, List.cons_append]
        rw [consolidateOne, hd]

/-- Witness for C9: with detections `["John Doe", "Missing", "After"]` and
a dict covering only `"john doe"`, the call fails with key `"missing"`,
the first detection is already rewritten, and the remaining two are
untouched. -/
theorem consolidate_partial_mutation_witness :
    consolidate_pii_data
        [⟨"John Doe", 3, "PERSON", "PERSON_3"⟩, ⟨"Missing", 9, "X", "X_9"⟩,
          ⟨"After", 7, "Y", "Y_7"⟩]
        [("john doe", ⟨1, "PERSON", "PERSON_1"⟩)] =
      (some (pyLower (⟨"Missing", 9, "X", "X_9"⟩ : PiiItem).text),
        (([⟨"John Doe", 3, "PERSON", "PERSON_3"⟩, ⟨"Missing", 9, "X", "X_9"⟩,
            ⟨"After", 7, "Y", "Y_7"⟩] : List PiiItem).take 1).map
            (consolidateOne [("john doe", ⟨1, "PERSON", "PERSON_1"⟩)]) ++
          ([⟨"John Doe", 3, "PERSON", "PERSON_3"⟩, ⟨"Missing", 9, "X", "X_9"⟩,
            ⟨"After", 7, "Y", "Y_7"⟩] : List PiiItem).drop 1) :=
  consolidate_partial_mutation _ _ 1 ⟨"Missing", 9, "X", "X_9"⟩ (by decide)
    (by
      intro j q hj hget
      have hj0 : j = 0 := Nat.lt_one_iff.mp hj
      subst hj0
      simp only [List.getElem?_cons_zero, Option.some.injEq] at hget
      subst hget
      decide)
    (by decide)

theorem setFileEntityIdsHeapGo_frame (kd : List (String × Nat)) (a : Nat) :
    ∀ (fed : List (String × Nat)) (n : Int) (h : Heap),
      (∀ p ∈ fed, p.2 ≠ a) → setFileEntityIdsHeapGo kd n fed h a = h a := by
  intro fed
  induction fed with
  | nil => intro n h _; rfl
  | cons p rest ih =>
    intro n h hne
    obtain ⟨key, addr⟩ := p
    have haddr : addr ≠ a := hne (key, addr) (List.mem_cons_self _ _)
    have haddr' : a ≠ addr := fun h' => haddr h'.symm
    have hrest : ∀ q ∈ rest, q.2 ≠ a :=
      fun q hq => hne q (List.mem_cons_of_mem _ hq)
    cases hd : dictGet kd key with
    | some kaddr =>
      simp only [setFileEntityIdsHeapGo, hd]
      rw [ih n _ hrest]
      simp [heapUpdate, haddr']
    | none =>
      simp only [setFileEntityIdsHeapGo, hd]
      rw [ih (n + 1) _ hrest]
      simp [heapUpdate, haddr']

/-- C10: `set_file_entity_ids` never modifies its `known_entities`
argument.  In the heap model, where every in-place Python dict write is an
explicit heap update, any record whose address is in the registry and is
distinct from every `file_entities_dict` record (the claim's "distinct
objects" proviso) is bit-for-bit unchanged by the call: its `id`, `label`
and `name` fields are preserved, and the registry list itself is never
written. -/
theorem set_file_entity_ids_preserves_known (fed : List (String × Nat))
    (known : List Nat) (h : Heap) (a : Nat) (_hka : a ∈ known)
    (hdistinct : ∀ p ∈ fed, p.2 ≠ a) :
    set_file_entity_ids_heap fed known h a = h a := by
  unfold set_file_entity_ids_heap
  exact setFileEntityIdsHeapGo_frame _ a fed _ h hdistinct

/-- A concrete two-object heap for the C10 witness: address 0 holds a file
entity record, address 1 holds the registry record. -/
def c10Heap : Heap := fun n =>
  if n = 0 then ⟨3, "PERSON_3", emptyString, "PERSON"⟩
  else ⟨1, "PERSON_1", "John Doe", "PERSON"⟩

/-- Witness for C10: running the heap model on a dict holding address 0
and a registry holding address 1 leaves the registry record at address 1
untouched. -/
theorem set_file_entity_ids_preserves_known_witness :
    set_file_entity_ids_heap [("john doe", 0)] [1] c10Heap 1 = c10Heap 1 :=
  set_file_entity_ids_preserves_known [("john doe", 0)] [1] c10Heap 1
    (by decide) (by decide)
